import Mathlib

/-!
Verification of the zerotk/easyfs file-discovery and bulk-copy engine.

The repository ships the engine's test suite (`tests/easyfs_test.py`) and a
small open-file helper (`easyfs/_fileutils.py`); the engine module itself
(`zerotk.easyfs._easyfs`, exporting `CopyFile`, `CopyFiles`, `CopyFilesX`,
`CopyDirectory`, `FindFiles`, `MD5_SKIP`, ...) is not present in the source
tree.  The definitions below therefore model that missing module from the
specification, constrained by the observable behaviour that the repository's
own test suite pins down (noted at each definition).

Two state representations are used:
* a flat filesystem `FS` (association list from path strings to file
  contents) for the single-file `CopyFile` operation and its `.md5` sidecar
  protocol, and
* a directory tree `FTree` for the traversal (`FindFiles`) and bulk-copy
  (`CopyFiles`, `CopyFilesX`, `CopyDirectory`) operations.

Errors are modelled with `Except`; an operation returns its (possibly
updated) state together with the `Except` outcome, so "raised before any
mutation" is expressible as the returned state being the input state.
-/

set_option autoImplicit false

deriving instance DecidableEq for Except

namespace EasyFs

/-! ## Path and URL helpers -/

/-- Modelled from the spec: scheme extraction of the "Scheme classification"
collaborator (§6).  Returns the characters before the first `"://"`, if any.
The missing `_easyfs` module resolves schemes with `urlparse`; for the paths
exercised by the repository (plain paths and `ERROR://...` URLs) the scheme
is exactly the text before `"://"`. -/
def schemeChars : List Char → Option (List Char)
  | [] => none
  | ':' :: '/' :: '/' :: _ => some []
  | c :: rest =>
    match schemeChars rest with
    | none => none
    | some s => some (c :: s)

/-- Modelled from the spec: `IsLocalPath(path)` (§6).  A path is local when
it carries no URL scheme or the `file` scheme; every other scheme must be
rejected with `NotImplementedProtocol` by the copy operations. -/
def IsLocal (p : String) : Bool :=
  match schemeChars p.data with
  | none => true
  | some s => (s.map Char.toLower) == "file".data

/-- Split a character list on a separator character.  Mirrors how the missing
module splits path strings on `/` (and filter strings on `;`); like Python's
`str.split`, it keeps empty pieces and always returns at least one piece. -/
def splitChar (sep : Char) : List Char → List (List Char)
  | [] => [[]]
  | c :: rest =>
    let r := splitChar sep rest
    if c = sep then [] :: r
    else
      match r with
      | [] => [[c]]
      | p :: ps => (c :: p) :: ps

/-- Path string into its `/`-separated segments. -/
def splitPath (s : String) : List String :=
  (splitChar '/' s.data).map String.mk

/-- Join path segments with `/` (inverse direction of `splitPath`). -/
def joinSegs : List String → String
  | [] => ""
  | [s] => s
  | s :: ss => s ++ "/" ++ joinSegs ss

/-- Last segment of a segment list (empty string for the empty list). -/
def lastSeg : List String → String
  | [] => ""
  | [s] => s
  | _ :: ss => lastSeg ss

/-- Modelled from the spec: `os.path.join` as used by the missing module on
already-relative right operands: `pjoin "" b = b`, otherwise `a ++ "/" ++ b`. -/
def pjoin (a b : String) : String :=
  if a = "" then b else a ++ "/" ++ b

/-- Modelled from the spec: `os.path.basename` as used by the missing
module's flatten mode — the suffix of the path after its last `/`. -/
def basename (s : String) : String :=
  String.mk ((s.data.reverse.takeWhile (fun c => c ≠ '/')).reverse)

/-! ## Glob matching

Modelled from the spec: the pattern list semantics of §3/§4.1 — shell-style
wildcards `*`, `?` and `[...]` applied by `fnmatch` to a basename, a list
matching when any of its patterns matches. -/

/-- Character-set body of a `[...]` glob pattern: `a-b` ranges and single
characters. -/
def setMatch : List Char → Char → Bool
  | a :: '-' :: b :: rest, c => (a ≤ c && c ≤ b) || setMatch rest c
  | a :: rest, c => (a == c) || setMatch rest c
  | [], _ => false

/-- Scan the body of a `[...]` glob pattern after the opening bracket: the
accumulated body and the remaining pattern after the closing bracket.  A
`]` in first position is literal; an unterminated set yields `none` (the
`[` is then matched literally, as in `fnmatch`). -/
def scanSet (acc : List Char) : List Char → Option (List Char × List Char)
  | [] => none
  | ']' :: rest =>
    if acc.isEmpty then scanSet [']'] rest
    else some (acc.reverse, rest)
  | c :: rest => scanSet (c :: acc) rest

/-- One step of glob matching: match pattern `p` against a first character
`c`, where `gmcs` decides whether a (suffix) pattern matches the remaining
characters. -/
def globStep (gmcs : List Char → Bool) : List Char → Char → Bool
  | [], _ => false
  | ch :: ps, c =>
    if ch = '*' then globStep gmcs ps c || gmcs (ch :: ps)
    else if ch = '?' then gmcs ps
    else if ch = '[' then
      (match scanSet [] ps with
       | none => (ch == c) && gmcs ps
       | some (body, rest) =>
         (match body with
          | '!' :: body' => !setMatch body' c
          | _ => setMatch body c) && gmcs rest)
    else (ch == c) && gmcs ps

/-- Glob pattern matching over character lists (`fnmatch`): `*` matches any
run, `?` any single character, `[...]`/`[!...]` a character set, everything
else literally. -/
def globMatch : List Char → List Char → Bool
  | p, [] => p.all (fun c => c == '*')
  | p, c :: cs => globStep (fun q => globMatch q cs) p c

/-- Modelled from the spec: `MatchMasks(filename, filters)` of the missing
module — true when the name matches any pattern of the list (§3 "OR
semantics"). -/
def MatchMasks (name : String) (filters : List String) : Bool :=
  filters.any (fun p => globMatch p.data name.data)

/-! ## Flat filesystem state and `CopyFile` -/

/-- Flat filesystem: an association list from path strings to file
contents.  The first binding of a path wins; absent paths are missing
files. -/
abbrev FS := List (String × String)

/-- Content of a path, if present. -/
def FS.lookup : FS → String → Option String
  | [], _ => none
  | (q, d) :: rest, p => if q = p then some d else FS.lookup rest p

/-- Write (create or overwrite) a file. -/
def FS.write : FS → String → String → FS
  | [], p, c => [(p, c)]
  | (q, d) :: rest, p, c =>
    if q = p then (p, c) :: rest else (q, d) :: FS.write rest p c

/-- Error taxonomy of the spec (§7), as far as the modelled operations
raise them. -/
inductive FileErr where
  | NotImplementedProtocol
  | FileAlreadyExistsError
  | FileNotFoundError
  | DirectoryNotFoundError
  | DirectoryAlreadyExistsError
  deriving DecidableEq

/-- Outcome of a successful `CopyFile`.  `MD5_SKIP` models the module
constant of that name.  `COPIED` models the `None` that the Python function
returns after actually copying: the test suite (`testCopyFileWithMd5`,
lines 134-146) asserts `result == MD5_SKIP` on a skip and `result is None`
otherwise, so the successful return is two-valued exactly as the spec's
`SKIPPED | COPIED` — with `COPIED` spelt `None` by the implementation. -/
inductive CopyFileResult where
  | MD5_SKIP
  | COPIED
  deriving DecidableEq

/-- Modelled from the spec: `CopyFile` of the missing `_easyfs` module
(§4.4 state machine), md5 behaviour constrained by `testCopyFileWithMd5`:

* non-local source or target scheme fails with `NotImplementedProtocol`
  before anything else (spec §4.4; test `testCopyFile` lines 769-777);
* existing target without `override` fails with `FileAlreadyExistsError`;
* with `md5_check`, the copy is skipped (returning `MD5_SKIP`) exactly when
  the source sidecar `source ++ ".md5"` exists, the target sidecar has the
  same contents, and the target file itself exists;
* otherwise the bytes are copied, and then — as the test's lines 177-182
  demand, *only* when a source sidecar exists and differs from the previous
  target sidecar — the target sidecar is rewritten with the source
  sidecar's contents.  No source sidecar is ever written, and a missing
  source sidecar leaves both sidecars untouched. -/
def CopyFile (fs : FS) (source_filename target_filename : String)
    (override md5_check : Bool) : FS × Except FileErr CopyFileResult :=
  if !IsLocal source_filename then (fs, .error .NotImplementedProtocol)
  else if !IsLocal target_filename then (fs, .error .NotImplementedProtocol)
  else if (FS.lookup fs target_filename).isSome && !override then
    (fs, .error .FileAlreadyExistsError)
  else
    let source_md5 := FS.lookup fs (source_filename ++ ".md5")
    let target_md5 := FS.lookup fs (target_filename ++ ".md5")
    if md5_check && source_md5.isSome && source_md5 == target_md5
        && (FS.lookup fs target_filename).isSome then
      (fs, .ok .MD5_SKIP)
    else
      match FS.lookup fs source_filename with
      | none => (fs, .error .FileNotFoundError)
      | some contents =>
        let fs1 := FS.write fs target_filename contents
        let fs2 :=
          match source_md5 with
          | some s =>
            if md5_check && !(source_md5 == target_md5) then
              FS.write fs1 (target_filename ++ ".md5") s
            else fs1
          | none => fs1
        (fs2, .ok .COPIED)

/-! ## Directory trees -/

/-- A directory tree: a file with contents, or a directory with a list of
named children (in listing order, which the missing module's traversal
makes deterministic). -/
inductive FTree where
  | file (content : String)
  | dir (children : List (String × FTree))

/-- First child with the given name, if any. -/
def lookupChild : List (String × FTree) → String → Option FTree
  | [], _ => none
  | (m, u) :: rest, n => if m = n then some u else lookupChild rest n

/-- Replace the child with the given name, or append it. -/
def setChild : List (String × FTree) → String → FTree → List (String × FTree)
  | [], n, t => [(n, t)]
  | (m, u) :: rest, n, t =>
    if m = n then (n, t) :: rest else (m, u) :: setChild rest n t

/-- Remove the child with the given name, if present. -/
def removeChild : List (String × FTree) → String → List (String × FTree)
  | [], _ => []
  | (m, u) :: rest, n => if m = n then rest else (m, u) :: removeChild rest n

/-- Resolve a segment path inside a tree. -/
def FTree.find : FTree → List String → Option FTree
  | t, [] => some t
  | .file _, _ :: _ => none
  | .dir cs, n :: rest =>
    match lookupChild cs n with
    | some u => FTree.find u rest
    | none => none

/-- Whether a segment path resolves to a directory. -/
def isDirAt (r : FTree) (segs : List String) : Bool :=
  match FTree.find r segs with
  | some (.dir _) => true
  | _ => false

/-- Whether a file sits somewhere along a segment path, so that the path
cannot be used (or created) as a directory path. -/
def pathBlocked : FTree → List String → Bool
  | .file _, _ => true
  | .dir _, [] => false
  | .dir cs, n :: rest =>
    match lookupChild cs n with
    | some u => pathBlocked u rest
    | none => false

/-- Modelled from the spec: the `MakeDirs` collaborator (§6) as used with
`create_target_dir` — create every missing directory along the path.  Total
simplification: a file standing in the way is replaced by a directory; the
real collaborator raises an OS error there, an edge the spec leaves to the
OS and the theorems exclude via `pathBlocked`. -/
def mkdirs : FTree → List String → FTree
  | .dir cs, [] => .dir cs
  | .file _, [] => .dir []
  | .dir cs, n :: rest =>
    let child := match lookupChild cs n with
      | some u => u
      | none => .dir []
    .dir (setChild cs n (mkdirs child rest))
  | .file _, n :: rest => .dir [(n, mkdirs (.dir []) rest)]

/-- Graft a tree at a segment path, creating intermediate directories and
replacing whatever was at the path. -/
def insertTreeAt : FTree → List String → FTree → FTree
  | _, [], t => t
  | .dir cs, n :: rest, t =>
    let child := match lookupChild cs n with
      | some u => u
      | none => .dir []
    .dir (setChild cs n (insertTreeAt child rest t))
  | .file _, n :: rest, t => .dir [(n, insertTreeAt (.dir []) rest t)]

/-- Remove the entry at a segment path, if present. -/
def removeAt : FTree → List String → FTree
  | t, [] => t
  | .file c, _ :: _ => .file c
  | .dir cs, [n] => .dir (removeChild cs n)
  | .dir cs, n :: rest =>
    match lookupChild cs n with
    | some u => .dir (setChild cs n (removeAt u rest))
    | none => .dir cs

/-- A usable file or directory name: non-empty and free of `/`. -/
def nameOK (s : String) : Bool :=
  !s.data.isEmpty && s.data.all (fun c => c ≠ '/')

/-- Every name in the tree is a usable name (true of any tree read off a
real filesystem). -/
def treeOK : FTree → Bool
  | .file _ => true
  | .dir [] => true
  | .dir ((n, t) :: rest) => nameOK n && treeOK t && treeOK (.dir rest)

/-! ## Traversal -/

/-- Modelled from the spec: `FindFiles` of the missing `_easyfs` module
(§4.3 Traverser), over the children of the traversal root.  Yields
`(relative path segments, is_directory)` pairs (the relative form that
`include_root_dir=False` produces; `include_root_dir=True` only prefixes
the root path).  For each child, in listing order:

* a directory whose name matches `outfil` is pruned: neither yielded nor
  descended into (test `testFindFiles` lines 1124-1136);
* a child matching `infil` and not `outfil` is yielded — directories as
  well as files (test lines 1022-1055);
* a directory that was not pruned is descended into when `rec` is true,
  whether or not it was yielded. -/
def FindFiles (rec : Bool) (infil outfil : List String) :
    List (String × FTree) → List (List String × Bool)
  | [] => []
  | (n, FTree.file _) :: rest =>
    (if MatchMasks n infil && !MatchMasks n outfil then [([n], false)] else [])
      ++ FindFiles rec infil outfil rest
  | (n, FTree.dir sub) :: rest =>
    if MatchMasks n outfil then FindFiles rec infil outfil rest
    else
      (if MatchMasks n infil then [([n], true)] else [])
        ++ (if rec then (FindFiles rec infil outfil sub).map (fun e => (n :: e.1, e.2))
            else [])
        ++ FindFiles rec infil outfil rest

/-- Relative traversal results at a path of a root tree, joined into
relative path strings: `FindFiles` with the default filters `['*']`/`[]`,
recursive, `include_root_dir=False`.  An unresolvable root yields the empty
sequence (spec §4.3 failure mode). -/
def findFilesRelAt (r : FTree) (segs : List String) : List String :=
  match FTree.find r segs with
  | some (FTree.dir cs) => (FindFiles true ["*"] [] cs).map (fun e => joinSegs e.1)
  | _ => []

/-! ## `CopyFilesX` -/

/-- The three copy modes of a `CopyFilesX` spec (§3 copy spec). -/
inductive CopyMode where
  | shallow
  | tree
  | flat
  deriving DecidableEq

/-- Whether the mode traverses recursively. -/
def CopyMode.recursive : CopyMode → Bool
  | .shallow => false
  | _ => true

/-- Modelled from the spec: the mode marker of a `CopyFilesX` source
pattern — `+` recursive-preserve, `-` recursive-flatten, none shallow —
and the remaining pattern text. -/
def parseMode (p : String) : CopyMode × String :=
  match p.data with
  | '+' :: rest => (.tree, String.mk rest)
  | '-' :: rest => (.flat, String.mk rest)
  | _ => (.shallow, p)

/-- Segments of a `CopyFilesX` source pattern after the mode marker. -/
def specSegs (pat : String) : List String :=
  splitPath (parseMode pat).2

/-- Base directory segments of a `CopyFilesX` source pattern (all but the
final segment, which is the filter mask). -/
def specBaseSegs (pat : String) : List String :=
  (specSegs pat).dropLast

/-- Final (mask) segment of a `CopyFilesX` source pattern. -/
def specMask (pat : String) : String :=
  lastSeg (specSegs pat)

/-- Positive sub-patterns of the mask: the `;`-separated pieces without a
leading `!`. -/
def specInFilters (pat : String) : List String :=
  ((splitChar ';' (specMask pat).data).filter
    (fun f => f.head? ≠ some '!')).map String.mk

/-- Negative sub-patterns of the mask: the `;`-separated pieces with a
leading `!`, the `!` stripped. -/
def specOutFilters (pat : String) : List String :=
  (splitChar ';' (specMask pat).data).filterMap
    (fun f => match f with
      | '!' :: r => some (String.mk r)
      | _ => none)

/-- Modelled from the spec: the `(source, target)` pairs one `CopyFilesX`
spec `(target_dir, pat)` produces (§4.4): traverse the pattern's base
directory with the mask's positive/negative filters, recursively unless
shallow; keep the files (directories are never copied); source is the base
directory joined with the relative path, target is `target_dir` joined with
the relative path (`+` and shallow) or with its basename alone (`-`).
Matches `testCopyFilesX` throughout. -/
def copySpecPairs (root : FTree) (target_dir pat : String) :
    List (String × String) :=
  let mode := (parseMode pat).1
  let base := specBaseSegs pat
  let entries :=
    match FTree.find root base with
    | some (FTree.dir cs) =>
      FindFiles mode.recursive (specInFilters pat) (specOutFilters pat) cs
    | _ => []
  entries.filterMap (fun e =>
    if e.2 then none
    else some
      (pjoin (joinSegs base) (joinSegs e.1),
       pjoin target_dir
         (match mode with
          | .flat => lastSeg e.1
          | _ => joinSegs e.1)))

/-- Modelled from the spec: `CopyFilesX(file_mapping)` of the missing
module — the pairs of every spec, in order (the caller treats the result
as a set). -/
def CopyFilesX (root : FTree) : List (String × String) → List (String × String)
  | [] => []
  | (td, pat) :: rest => copySpecPairs root td pat ++ CopyFilesX root rest

/-! ## `CopyFiles` and `CopyDirectory` -/

/-- Copy a list of named entries under a target directory path, one
subtree graft per entry. -/
def copyEntries (tgtSegs : List String) : FTree → List (String × FTree) → FTree
  | r, [] => r
  | r, (n, t) :: rest => copyEntries tgtSegs (insertTreeAt r (tgtSegs ++ [n]) t) rest

/-- Copy the children of `srcDir` matching `mask` into the directory at
`tgtSegs`; an unresolvable source is a no-op (spec §4.4 `CopyFiles`). -/
def copyFilesInto (r : FTree) (srcDir : List String) (mask : String)
    (tgtSegs : List String) : FTree :=
  match FTree.find r srcDir with
  | some (FTree.dir cs) =>
    copyEntries tgtSegs r (cs.filter (fun e => globMatch mask.data e.1.data))
  | _ => r

/-- Modelled from the spec: `CopyFiles(source_dir, target_dir,
create_target_dir)` of the missing module (§4.4), behaviour pinned by
`testCopyFiles` (lines 306-330):

* a non-local source or target scheme fails with `NotImplementedProtocol`
  (raised by the directory probe before any mutation);
* when the source is not an existing directory, its final segment is used
  as a match mask over its parent directory (so `missing/*` lists
  nothing);
* a missing target directory fails with `DirectoryNotFoundError` unless
  `create_target_dir` is set, in which case it is created;
* an unresolvable source directory copies nothing and raises nothing;
* matched children are copied (directories as whole subtrees — grafted;
  the merge-with-existing-target refinement is outside the claims). -/
def CopyFiles (root : FTree) (source_dir target_dir : String)
    (create_target_dir : Bool) : FTree × Except FileErr Unit :=
  if !IsLocal source_dir then (root, .error .NotImplementedProtocol)
  else if !IsLocal target_dir then (root, .error .NotImplementedProtocol)
  else
    let srcSegs := splitPath source_dir
    let sm := if isDirAt root srcSegs then (srcSegs, "*")
              else (srcSegs.dropLast, lastSeg srcSegs)
    let tgtSegs := splitPath target_dir
    if isDirAt root tgtSegs then
      (copyFilesInto root sm.1 sm.2 tgtSegs, .ok ())
    else if create_target_dir then
      (copyFilesInto (mkdirs root tgtSegs) sm.1 sm.2 tgtSegs, .ok ())
    else (root, .error .DirectoryNotFoundError)

/-- Modelled from the spec: `CopyDirectory(source_dir, target_dir,
override)` of the missing module (§4.4): non-local schemes rejected; a
missing source directory fails with `DirectoryNotFoundError`; an existing
target fails with `DirectoryAlreadyExistsError` unless `override`, which
removes it first; then the source subtree is mirrored at the target path. -/
def CopyDirectory (root : FTree) (source_dir target_dir : String)
    (override : Bool) : FTree × Except FileErr Unit :=
  if !IsLocal source_dir then (root, .error .NotImplementedProtocol)
  else if !IsLocal target_dir then (root, .error .NotImplementedProtocol)
  else
    match FTree.find root (splitPath source_dir) with
    | some (FTree.dir cs) =>
      if (FTree.find root (splitPath target_dir)).isSome && !override then
        (root, .error .DirectoryAlreadyExistsError)
      else
        let root1 := if override then removeAt root (splitPath target_dir) else root
        (insertTreeAt root1 (splitPath target_dir) (FTree.dir cs), .ok ())
    | _ => (root, .error .DirectoryNotFoundError)

/-! ## Concrete fixtures used by witnesses -/

/-- The flat filesystem of `testCopyFileWithMd5` before the first copy:
the source file and its sidecar. -/
def md5FS : FS := [("md5/file", "DATA"), ("md5/file.md5", "65fa")]

/-- The `complex_tree` directory of the test data
(`root/{1, 2, subdir_1/subsubdir_1/{1.1.1, 1.1.2}, subdir_2/2.1}`). -/
def complexTree : List (String × FTree) :=
  [("1", FTree.file "c1"), ("2", FTree.file "c2"),
   ("subdir_1", FTree.dir
     [("subsubdir_1", FTree.dir
       [("1.1.1", FTree.file "a"), ("1.1.2", FTree.file "b")])]),
   ("subdir_2", FTree.dir [("2.1", FTree.file "d")])]

/-- A root filesystem holding `complex_tree` under the name `root`. -/
def complexRoot : FTree := FTree.dir [("root", FTree.dir complexTree)]

/-- The `A` subdirectory of the `test_find_files` tree of
`testFindFiles`. -/
def findTreeA : List (String × FTree) :=
  [("B", FTree.dir
     [("mytestB.txt", FTree.file ""), ("testB.bmp", FTree.file "")]),
   ("C", FTree.dir
     [("mytestC.txt", FTree.file ""), ("testC.bmp", FTree.file "")]),
   ("mytestA.txt", FTree.file ""), ("testA.bmp", FTree.file "")]

/-- The `test_find_files` tree of `testFindFiles`. -/
def findTree : List (String × FTree) :=
  [("A", FTree.dir findTreeA),
   ("mytestRoot.txt", FTree.file ""), ("testRoot.bmp", FTree.file "")]

/-- A small tree for the `CopyFilesX` flatten/preserve witness: one file
two levels below the base directory. -/
def flatRoot : FTree :=
  FTree.dir [("b", FTree.dir [("d", FTree.dir [("f", FTree.file "x")])])]

/-- A root with a source directory to mirror for the `CopyDirectory`
round-trip witness. -/
def mirrorRoot : FTree :=
  FTree.dir [("s", FTree.dir
    [("f", FTree.file "x"), ("d1", FTree.dir [("g", FTree.file "y")])])]

/-- `mirrorRoot` after `CopyDirectory s t`. -/
def mirrorAfter : FTree :=
  FTree.dir [("s", FTree.dir
    [("f", FTree.file "x"), ("d1", FTree.dir [("g", FTree.file "y")])]),
   ("t", FTree.dir
    [("f", FTree.file "x"), ("d1", FTree.dir [("g", FTree.file "y")])])]

/-- The `files/source` fixture of `testCopyFiles`. -/
def copyFilesRoot : FTree :=
  FTree.dir [("files", FTree.dir [("source", FTree.dir
    [("alpha.txt", FTree.file "a"), ("bravo.txt", FTree.file "b"),
     ("subfolder", FTree.dir [])])])]

/-- The flat filesystem of `testCopyFileWithMd5` after the first
md5-checked copy: source, target and both sidecars agree. -/
def md5FSAfter : FS :=
  [("md5/file", "DATA"), ("md5/file.md5", "65fa"),
   ("md5/copied_file", "DATA"), ("md5/copied_file.md5", "65fa")]

/-! ## Helper lemmas: flat filesystem -/

theorem FS.lookup_write_self (fs : FS) (p c : String) :
    FS.lookup (FS.write fs p c) p = some c := by
  induction fs with
  | nil => simp [FS.write, FS.lookup]
  | cons e rest ih =>
    by_cases h : e.1 = p
    · simp [FS.write, FS.lookup, h]
    · simpa [FS.write, FS.lookup, h] using ih

theorem FS.lookup_write_ne (fs : FS) (p c q : String) (h : p ≠ q) :
    FS.lookup (FS.write fs p c) q = FS.lookup fs q := by
  induction fs with
  | nil => simp [FS.write, FS.lookup, h]
  | cons e rest ih =>
    by_cases h1 : e.1 = p
    · simp [FS.write, FS.lookup, h1, h]
    · by_cases h2 : e.1 = q <;> simp [FS.write, FS.lookup, h1, h2, Ne.symm h, ih]

theorem append_md5_ne (s : String) : s ++ ".md5" ≠ s := by
  intro h
  have hd : (s ++ ".md5").data = s.data := congrArg String.data h
  rw [String.data_append] at hd
  have := congrArg List.length hd
  simp at this

theorem append_md5_inj {s t : String} (h : s ++ ".md5" = t ++ ".md5") : s = t := by
  have hd := congrArg String.data h
  rw [String.data_append, String.data_append] at hd
  exact String.ext (List.append_left_injective _ hd)

/-- Full case analysis of `CopyFile` with `override` and `md5_check` set, a
local source and target, and an existing source file: either the
fingerprint state is up to date and the call returns `MD5_SKIP` leaving the
state alone, or it is not and the call copies. -/
theorem copyFile_md5_cases (fs : FS) (src tgt c : String)
    (hs : IsLocal src = true) (ht : IsLocal tgt = true)
    (hsrc : FS.lookup fs src = some c) :
    (((FS.lookup fs tgt).isSome = true ∧
        ∃ d, FS.lookup fs (tgt ++ ".md5") = some d ∧
          FS.lookup fs (src ++ ".md5") = some d) ∧
      CopyFile fs src tgt true true = (fs, .ok .MD5_SKIP)) ∨
    ((¬ ((FS.lookup fs tgt).isSome = true ∧
        ∃ d, FS.lookup fs (tgt ++ ".md5") = some d ∧
          FS.lookup fs (src ++ ".md5") = some d)) ∧
      (CopyFile fs src tgt true true).2 = .ok .COPIED ∧
      FS.lookup (CopyFile fs src tgt true true).1 tgt = some c) := by
  rcases hS : FS.lookup fs (src ++ ".md5") with _ | s
  · right
    refine ⟨by simp [hS], ?_⟩
    simp [CopyFile, hs, ht, hS, hsrc, FS.lookup_write_self]
  · rcases hT : FS.lookup fs (tgt ++ ".md5") with _ | t
    · right
      refine ⟨by simp [hS, hT], ?_⟩
      simp [CopyFile, hs, ht, hS, hT, hsrc]
      rw [FS.lookup_write_ne _ _ _ _ (append_md5_ne tgt),
        FS.lookup_write_self]
    · by_cases he : s = t
      · subst he
        rcases hG : FS.lookup fs tgt with _ | g
        · right
          refine ⟨by simp [hG], ?_⟩
          simp [CopyFile, hs, ht, hS, hT, hG, hsrc, FS.lookup_write_self]
        · left
          exact ⟨⟨by simp, ⟨s, rfl, rfl⟩⟩,
            by simp [CopyFile, hs, ht, hS, hT, hG, hsrc]⟩
      · right
        refine ⟨?_, ?_⟩
        · rintro ⟨-, d, hd1, hd2⟩
          injection hd1 with h1
          injection hd2 with h2
          exact he (h2.trans h1.symm)
        · have hbe : ((some s : Option String) == some t) = false := by
            simp [he]
          simp [CopyFile, hs, ht, hS, hT, hsrc, hbe]
          rw [FS.lookup_write_ne _ _ _ _ (append_md5_ne tgt),
            FS.lookup_write_self]

/-! ## Claim C1 -/

/-- C1: `CopyFile(source, target, override=true, md5_check=true)` returns
`MD5_SKIP` if and only if the target file exists, the target sidecar
exists, the source sidecar exists, and the two sidecar digests are equal;
when any piece is missing or the digests differ, a real copy is performed
(the call returns the copied outcome and the target afterwards holds the
source's contents).  The two scenario sentences of the claim follow:
deleting only the target sidecar, or only the target file, each falsify
the right-hand side, so the next call copies. -/
theorem copyFile_md5_skip_iff (fs : FS) (src tgt c : String)
    (hs : IsLocal src = true) (ht : IsLocal tgt = true)
    (hsrc : FS.lookup fs src = some c) :
    ((CopyFile fs src tgt true true).2 = .ok .MD5_SKIP ↔
      ((FS.lookup fs tgt).isSome = true ∧
        ∃ d, FS.lookup fs (tgt ++ ".md5") = some d ∧
          FS.lookup fs (src ++ ".md5") = some d)) ∧
    (¬ ((FS.lookup fs tgt).isSome = true ∧
        ∃ d, FS.lookup fs (tgt ++ ".md5") = some d ∧
          FS.lookup fs (src ++ ".md5") = some d) →
      (CopyFile fs src tgt true true).2 = .ok .COPIED ∧
      FS.lookup (CopyFile fs src tgt true true).1 tgt = some c) := by
  rcases copyFile_md5_cases fs src tgt c hs ht hsrc with ⟨hc, heq⟩ | ⟨hc, h2, h3⟩
  · exact ⟨⟨fun _ => hc, fun _ => by rw [heq]⟩, fun hn => absurd hc hn⟩
  · refine ⟨⟨fun hskip => ?_, fun hcond => absurd hcond hc⟩, fun _ => ⟨h2, h3⟩⟩
    exact absurd (h2.symm.trans hskip) (by simp)

/-- Witness for C1 at the state after the first copy of
`testCopyFileWithMd5`, where the fingerprint state is up to date. -/
theorem copyFile_md5_skip_iff_witness :
    IsLocal "md5/file" = true ∧
    FS.lookup md5FSAfter "md5/file" = some "DATA" ∧
    ((CopyFile md5FSAfter "md5/file" "md5/copied_file" true true).2
        = .ok .MD5_SKIP ↔
      ((FS.lookup md5FSAfter "md5/copied_file").isSome = true ∧
        ∃ d, FS.lookup md5FSAfter ("md5/copied_file" ++ ".md5") = some d ∧
          FS.lookup md5FSAfter ("md5/file" ++ ".md5") = some d)) :=
  ⟨by decide, by decide,
    (copyFile_md5_skip_iff md5FSAfter "md5/file" "md5/copied_file" "DATA"
      (by decide) (by decide) (by decide)).1⟩

/-! ## Claim C2 -/

/-- C2: on an existing local source with `override` and `md5_check`,
`CopyFile` succeeds with exactly one of the two observable outcomes —
`MD5_SKIP` (the spec's SKIPPED), exactly when the fingerprint check says
the target is up to date, in which case the filesystem is untouched — or
the copied outcome (the spec's COPIED, the Python `None` return) after a
real copy.  No error and no third value is observable. -/
theorem copyFile_md5_two_outcomes (fs : FS) (src tgt c : String)
    (hs : IsLocal src = true) (ht : IsLocal tgt = true)
    (hsrc : FS.lookup fs src = some c) :
    ((CopyFile fs src tgt true true).2 = .ok .MD5_SKIP ∧
      ((FS.lookup fs tgt).isSome = true ∧
        ∃ d, FS.lookup fs (tgt ++ ".md5") = some d ∧
          FS.lookup fs (src ++ ".md5") = some d) ∧
      (CopyFile fs src tgt true true).1 = fs) ∨
    ((CopyFile fs src tgt true true).2 = .ok .COPIED ∧
      ¬ ((FS.lookup fs tgt).isSome = true ∧
        ∃ d, FS.lookup fs (tgt ++ ".md5") = some d ∧
          FS.lookup fs (src ++ ".md5") = some d)) := by
  rcases copyFile_md5_cases fs src tgt c hs ht hsrc with ⟨hc, heq⟩ | ⟨hc, h2, h3⟩
  · exact Or.inl ⟨by rw [heq], hc, by rw [heq]⟩
  · exact Or.inr ⟨h2, hc⟩

/-- Witness for C2 at the initial state of `testCopyFileWithMd5` (no
target yet: the call must take the copied branch). -/
theorem copyFile_md5_two_outcomes_witness :
    IsLocal "md5/file" = true ∧
    FS.lookup md5FS "md5/file" = some "DATA" ∧
    (((CopyFile md5FS "md5/file" "md5/copied_file" true true).2
        = .ok .MD5_SKIP ∧
      ((FS.lookup md5FS "md5/copied_file").isSome = true ∧
        ∃ d, FS.lookup md5FS ("md5/copied_file" ++ ".md5") = some d ∧
          FS.lookup md5FS ("md5/file" ++ ".md5") = some d) ∧
      (CopyFile md5FS "md5/file" "md5/copied_file" true true).1 = md5FS) ∨
    ((CopyFile md5FS "md5/file" "md5/copied_file" true true).2
        = .ok .COPIED ∧
      ¬ ((FS.lookup md5FS "md5/copied_file").isSome = true ∧
        ∃ d, FS.lookup md5FS ("md5/copied_file" ++ ".md5") = some d ∧
          FS.lookup md5FS ("md5/file" ++ ".md5") = some d))) :=
  ⟨by decide, by decide,
    copyFile_md5_two_outcomes md5FS "md5/file" "md5/copied_file" "DATA"
      (by decide) (by decide) (by decide)⟩

/-! ## Claim C3 -/

/-- C3 counterexample: a successful md5-checked copy whose source had no
sidecar.  The copy is performed, yet afterwards neither `source.md5` nor
`target.md5` exists — against the claim that a real copy always leaves
fresh sidecars for both source and target.  (This is exactly the final
scenario of `testCopyFileWithMd5`, lines 177-182, which asserts that both
sidecars are absent after the copy.) -/
theorem copyFile_sidecar_counterexample :
    (CopyFile [("src", "hello")] "src" "tgt" true true).2 = .ok .COPIED ∧
    FS.lookup (CopyFile [("src", "hello")] "src" "tgt" true true).1 "tgt"
      = some "hello" ∧
    FS.lookup (CopyFile [("src", "hello")] "src" "tgt" true true).1
      ("tgt" ++ ".md5") = none ∧
    FS.lookup (CopyFile [("src", "hello")] "src" "tgt" true true).1
      ("src" ++ ".md5") = none := by
  decide

/-- C3 amended: after a successful `CopyFile(..., md5_check=true)` that
performs a real copy, the source sidecar is never written, and the target
sidecar afterwards holds the source sidecar's pre-call contents when that
sidecar existed and is untouched otherwise (in particular, no sidecar at
all is written when the source had none); a skipped call leaves the whole
filesystem untouched. -/
theorem copyFile_sidecar_policy (fs : FS) (src tgt c : String)
    (hs : IsLocal src = true) (ht : IsLocal tgt = true)
    (hsrc : FS.lookup fs src = some c) (hne : tgt ≠ src ++ ".md5") :
    ((CopyFile fs src tgt true true).2 = .ok .MD5_SKIP →
      (CopyFile fs src tgt true true).1 = fs) ∧
    ((CopyFile fs src tgt true true).2 = .ok .COPIED →
      FS.lookup (CopyFile fs src tgt true true).1 (src ++ ".md5")
        = FS.lookup fs (src ++ ".md5") ∧
      FS.lookup (CopyFile fs src tgt true true).1 (tgt ++ ".md5")
        = (match FS.lookup fs (src ++ ".md5") with
           | some s => some s
           | none => FS.lookup fs (tgt ++ ".md5"))) := by
  rcases hS : FS.lookup fs (src ++ ".md5") with _ | s
  · refine ⟨fun hskip => ?_, fun _ => ?_⟩
    · have : (CopyFile fs src tgt true true).2 = .ok .COPIED := by
        simp [CopyFile, hs, ht, hS, hsrc]
      exact absurd (this.symm.trans hskip) (by simp)
    · simp only [CopyFile, hs, ht, hS, hsrc]
      norm_num
      rw [FS.lookup_write_ne _ _ _ _ hne,
        FS.lookup_write_ne _ _ _ _ (Ne.symm (append_md5_ne tgt))]
      exact ⟨hS, rfl⟩
  · rcases hT : FS.lookup fs (tgt ++ ".md5") with _ | t
    · refine ⟨fun hskip => ?_, fun _ => ?_⟩
      · have : (CopyFile fs src tgt true true).2 = .ok .COPIED := by
          simp [CopyFile, hs, ht, hS, hT, hsrc]
        exact absurd (this.symm.trans hskip) (by simp)
      · have htgtne : tgt ++ ".md5" ≠ src ++ ".md5" := by
          intro hq
          have := append_md5_inj hq
          subst this
          rw [hS] at hT
          exact Option.noConfusion hT
        simp only [CopyFile, hs, ht, hS, hT, hsrc]
        norm_num
        constructor
        · rw [FS.lookup_write_ne _ _ _ _ htgtne,
            FS.lookup_write_ne _ _ _ _ hne]
          exact hS
        · rw [FS.lookup_write_self]
    · by_cases he : s = t
      · subst he
        rcases hG : FS.lookup fs tgt with _ | g
        · refine ⟨fun hskip => ?_, fun _ => ?_⟩
          · have : (CopyFile fs src tgt true true).2 = .ok .COPIED := by
              simp [CopyFile, hs, ht, hS, hT, hG, hsrc]
            exact absurd (this.symm.trans hskip) (by simp)
          · simp only [CopyFile, hs, ht, hS, hT, hG, hsrc]
            norm_num
            rw [FS.lookup_write_ne _ _ _ _ hne,
              FS.lookup_write_ne _ _ _ _ (Ne.symm (append_md5_ne tgt))]
            exact ⟨hS, hT⟩
        · refine ⟨fun _ => ?_, fun hcop => ?_⟩
          · simp [CopyFile, hs, ht, hS, hT, hG, hsrc]
          · have : (CopyFile fs src tgt true true).2 = .ok .MD5_SKIP := by
              simp [CopyFile, hs, ht, hS, hT, hG, hsrc]
            exact absurd (this.symm.trans hcop) (by simp)
      · have hbe : ((some s : Option String) == some t) = false := by simp [he]
        have htgtne : tgt ++ ".md5" ≠ src ++ ".md5" := by
          intro hq
          have := append_md5_inj hq
          subst this
          rw [hS] at hT
          exact he (Option.some.injEq _ _ ▸ hT)
        refine ⟨fun hskip => ?_, fun _ => ?_⟩
        · have : (CopyFile fs src tgt true true).2 = .ok .COPIED := by
            simp [CopyFile, hs, ht, hS, hT, hsrc, hbe]
          exact absurd (this.symm.trans hskip) (by simp)
        · simp only [CopyFile, hs, ht, hS, hT, hsrc, hbe]
          norm_num
          constructor
          · rw [FS.lookup_write_ne _ _ _ _ htgtne,
              FS.lookup_write_ne _ _ _ _ hne]
            exact hS
          · rw [FS.lookup_write_self]

/-- Witness for C3's amended theorem at the state right before the final
scenario of `testCopyFileWithMd5`: source present, no sidecars. -/
theorem copyFile_sidecar_policy_witness :
    IsLocal "md5/file" = true ∧
    FS.lookup [("md5/file", "DATA")] "md5/file" = some "DATA" ∧
    ((CopyFile [("md5/file", "DATA")] "md5/file" "md5/copied_file" true true).2
        = .ok .COPIED →
      FS.lookup
        (CopyFile [("md5/file", "DATA")] "md5/file" "md5/copied_file" true true).1
        ("md5/file" ++ ".md5") = FS.lookup [("md5/file", "DATA")] ("md5/file" ++ ".md5") ∧
      FS.lookup
        (CopyFile [("md5/file", "DATA")] "md5/file" "md5/copied_file" true true).1
        ("md5/copied_file" ++ ".md5")
        = (match FS.lookup [("md5/file", "DATA")] ("md5/file" ++ ".md5") with
           | some s => some s
           | none => FS.lookup [("md5/file", "DATA")] ("md5/copied_file" ++ ".md5"))) :=
  ⟨by decide, by decide,
    (copyFile_sidecar_policy [("md5/file", "DATA")] "md5/file" "md5/copied_file"
      "DATA" (by decide) (by decide) (by decide) (by decide)).2⟩

/-! ## Claim C7 -/

/-- C7: a non-local scheme on the source or on the target makes `CopyFile`
and `CopyFiles` fail with `NotImplementedProtocol`, and the returned
filesystem state is exactly the input state — no mutation happened. -/
theorem copy_nonlocal_protocol (fs : FS) (root : FTree) (s t : String)
    (o m c : Bool) (h : IsLocal s = false ∨ IsLocal t = false) :
    CopyFile fs s t o m = (fs, .error .NotImplementedProtocol) ∧
    CopyFiles root s t c = (root, .error .NotImplementedProtocol) := by
  rcases h with h | h
  · constructor <;> simp [CopyFile, CopyFiles, h]
  · by_cases h2 : IsLocal s = true
    · constructor <;> simp [CopyFile, CopyFiles, h, h2]
    · have h2' : IsLocal s = false := by
        cases hv : IsLocal s
        · rfl
        · exact absurd hv h2
      constructor <;> simp [CopyFile, CopyFiles, h2']

/-- Witness for C7 with the `ERROR://` scheme pair of `testCopyFile`. -/
theorem copy_nonlocal_protocol_witness :
    (IsLocal "ERROR://source" = false ∨ IsLocal "ERROR://target" = false) ∧
    CopyFile [] "ERROR://source" "ERROR://target" true true
      = ([], .error .NotImplementedProtocol) ∧
    CopyFiles (FTree.dir []) "ERROR://source" "ERROR://target" false
      = (FTree.dir [], .error .NotImplementedProtocol) :=
  ⟨Or.inl (by decide),
    (copy_nonlocal_protocol [] (FTree.dir []) "ERROR://source" "ERROR://target"
      true true false (Or.inl (by decide))).1,
    (copy_nonlocal_protocol [] (FTree.dir []) "ERROR://source" "ERROR://target"
      true true false (Or.inl (by decide))).2⟩

/-! ## Claim C6 -/

/-- Every path segment of every yielded traversal entry fails the
out-filter: pruned directories are neither yielded nor descended into, so
no yielded path passes through one. -/
theorem findFiles_segments_out_free (rec : Bool) (infil outfil : List String) :
    ∀ cs : List (String × FTree), ∀ e ∈ FindFiles rec infil outfil cs,
      ∀ s ∈ e.1, MatchMasks s outfil = false
  | [] => by simp [FindFiles]
  | (n, FTree.file c) :: rest => by
    intro e he s hs
    simp only [FindFiles] at he
    rcases List.mem_append.1 he with h | h
    · by_cases hm : (MatchMasks n infil && !MatchMasks n outfil) = true
      · rw [if_pos hm] at h
        rcases List.mem_singleton.1 h with rfl
        rcases List.mem_singleton.1 hs with rfl
        rw [Bool.and_eq_true] at hm
        simpa using hm.2
      · rw [if_neg hm] at h
        cases h
    · exact findFiles_segments_out_free rec infil outfil rest e h s hs
  | (n, FTree.dir sub) :: rest => by
    intro e he s hs
    simp only [FindFiles] at he
    by_cases hm : MatchMasks n outfil = true
    · rw [if_pos hm] at he
      exact findFiles_segments_out_free rec infil outfil rest e he s hs
    · rw [if_neg hm] at he
      have hm' : MatchMasks n outfil = false := by
        cases hv : MatchMasks n outfil
        · rfl
        · exact absurd hv hm
      rcases List.mem_append.1 he with h | h
      · rcases List.mem_append.1 h with h1 | h1
        · by_cases hi : MatchMasks n infil = true
          · rw [if_pos hi] at h1
            rcases List.mem_singleton.1 h1 with rfl
            rcases List.mem_singleton.1 hs with rfl
            exact hm'
          · rw [if_neg hi] at h1
            cases h1
        · by_cases hr : rec = true
          · rw [if_pos hr] at h1
            rcases List.mem_map.1 h1 with ⟨p, hp, rfl⟩
            rcases List.mem_cons.1 hs with rfl | hsp
            · exact hm'
            · exact findFiles_segments_out_free rec infil outfil sub p hp s hsp
          · rw [if_neg hr] at h1
            cases h1
      · exact findFiles_segments_out_free rec infil outfil rest e h s hs
termination_by cs => sizeOf cs

/-- C6: during traversal, a directory matching the out-filter is pruned
whole — no yielded path has any segment naming such a directory, so
nothing beneath an out-filter-matched directory ever appears in the
results (its own name would be a segment of any such path). -/
theorem findFiles_prunes_out_filter_subtrees (rec : Bool)
    (infil outfil : List String) (cs : List (String × FTree))
    (e : List String × Bool) (he : e ∈ FindFiles rec infil outfil cs) :
    ∀ s ∈ e.1, MatchMasks s outfil = false :=
  findFiles_segments_out_free rec infil outfil cs e he

/-- Witness for C6 on the `testFindFiles` tree with
`out_filter = ['B', 'C']` (test lines 1124-1136): the yielded entry
`A/mytestA.txt` has no segment matching the out-filter. -/
theorem findFiles_prunes_out_filter_subtrees_witness :
    (["A", "mytestA.txt"], false) ∈ FindFiles true ["*"] ["B", "C"] findTree ∧
    MatchMasks "A" ["B", "C"] = false := by
  have hmem : (["A", "mytestA.txt"], false) ∈ FindFiles true ["*"] ["B", "C"] findTree := by
    simp only [findTree, findTreeA, FindFiles]
    norm_num [MatchMasks, globMatch, globStep]
    decide
  exact ⟨hmem,
    findFiles_prunes_out_filter_subtrees true ["*"] ["B", "C"] findTree
      (["A", "mytestA.txt"], false) hmem "A" (by simp)⟩

/-! ## Claim C10 -/

/-- C10: `FindFiles` yields directory entries as well as plain files: a
child directory whose name matches the in-filter and not the out-filter
appears in the yielded sequence itself (at every directory level, since
the traversal recursion applies this statement to each level's
children). -/
theorem findFiles_yields_directories (rec : Bool) (infil outfil : List String)
    (cs : List (String × FTree)) (n : String) (sub : List (String × FTree))
    (hmem : (n, FTree.dir sub) ∈ cs)
    (hin : MatchMasks n infil = true) (hout : MatchMasks n outfil = false) :
    ([n], true) ∈ FindFiles rec infil outfil cs := by
  induction cs with
  | nil => cases hmem
  | cons e rest ih =>
    rcases List.mem_cons.1 hmem with he | hm
    · rw [← he]
      simp only [FindFiles, hout, hin]
      simp
    · rcases e with ⟨m, t⟩
      cases t with
      | file c =>
        simp only [FindFiles]
        exact List.mem_append.2 (Or.inr (ih hm))
      | dir sub2 =>
        simp only [FindFiles]
        by_cases hm2 : MatchMasks m outfil = true
        · rw [if_pos hm2]
          exact ih hm
        · rw [if_neg hm2]
          exact List.mem_append.2 (Or.inr (ih hm))

/-- Witness for C10 mirroring `testFindFiles` lines 1022-1032: with
`in_filter = ['*']` and `out_filter = ['*.bmp']` the subdirectory `A` is
yielded alongside the files. -/
theorem findFiles_yields_directories_witness :
    ("A", FTree.dir findTreeA) ∈ findTree ∧
    MatchMasks "A" ["*"] = true ∧ MatchMasks "A" ["*.bmp"] = false ∧
    (["A"], true) ∈ FindFiles false ["*"] ["*.bmp"] findTree :=
  ⟨by simp [findTree], by decide, by decide,
    findFiles_yields_directories false ["*"] ["*.bmp"] findTree "A" findTreeA
      (by simp [findTree]) (by decide) (by decide)⟩

/-! ## Claim C4 -/

/-- Traversal of the `complex_tree` fixture with the default filters. -/
theorem findFiles_complexTree : FindFiles true ["*"] [] complexTree =
    [(["1"], false), (["2"], false), (["subdir_1"], true),
     (["subdir_1", "subsubdir_1"], true),
     (["subdir_1", "subsubdir_1", "1.1.1"], false),
     (["subdir_1", "subsubdir_1", "1.1.2"], false),
     (["subdir_2"], true), (["subdir_2", "2.1"], false)] := by
  simp only [complexTree, FindFiles]
  norm_num [MatchMasks, globMatch, globStep]

/-- C4: over `root/{1, 2, subdir_1/subsubdir_1/{1.1.1, 1.1.2},
subdir_2/2.1}`, `CopyFilesX([(T, '+root/*')])` produces exactly the five
`(source, target)` pairs, one per regular file, each target being `T`
joined with the file's path relative to `root` — and nothing else. -/
theorem copyFilesX_preserve_complex_tree :
    CopyFilesX complexRoot [("T", "+root/*")] =
      [("root/1", "T/1"), ("root/2", "T/2"),
       ("root/subdir_1/subsubdir_1/1.1.1", "T/subdir_1/subsubdir_1/1.1.1"),
       ("root/subdir_1/subsubdir_1/1.1.2", "T/subdir_1/subsubdir_1/1.1.2"),
       ("root/subdir_2/2.1", "T/subdir_2/2.1")] := by
  have h1 : specInFilters "+root/*" = ["*"] := rfl
  have h2 : specOutFilters "+root/*" = [] := rfl
  have h3 : specBaseSegs "+root/*" = ["root"] := rfl
  have h4 : (parseMode "+root/*").1 = CopyMode.tree := rfl
  have hf : FTree.find complexRoot ["root"] = some (FTree.dir complexTree) := rfl
  simp only [CopyFilesX, copySpecPairs, h1, h2, h3, h4, hf,
    findFiles_complexTree, CopyMode.recursive]
  rfl

/-! ## Claim C5 -/

theorem takeWhile_append_stop {α : Type} (p : α → Bool) (c : α) (hc : p c = false) :
    ∀ l1 l2 : List α, List.takeWhile p (l1 ++ c :: l2) = List.takeWhile p l1
  | [], l2 => by simp [List.takeWhile_cons, hc]
  | a :: l1, l2 => by
    by_cases ha : p a
    · simp [List.takeWhile_cons, ha, takeWhile_append_stop p c hc l1 l2]
    · simp [List.takeWhile_cons, ha]

theorem basename_append_slash (a b : String) :
    basename (a ++ "/" ++ b) = basename b := by
  unfold basename
  congr 1
  rw [String.data_append, String.data_append]
  have h1 : ("/" : String).data = ['/'] := rfl
  rw [h1]
  rw [List.reverse_append, List.reverse_append]
  have h2 : (['/'].reverse ++ a.data.reverse) = '/' :: a.data.reverse := rfl
  rw [h2]
  rw [takeWhile_append_stop _ '/' (by decide) b.data.reverse _]

theorem basename_of_noslash (s : String)
    (h : s.data.all (fun c => c ≠ '/') = true) : basename s = s := by
  unfold basename
  have hall : ∀ c ∈ s.data.reverse, (fun c => decide (c ≠ '/')) c = true := by
    intro c hc
    exact (List.all_eq_true.1 h) c (List.mem_reverse.1 hc)
  rw [List.takeWhile_eq_self_iff.2 hall, List.reverse_reverse]

theorem basename_joinSegs :
    ∀ segs : List String, segs ≠ [] → (∀ s ∈ segs, nameOK s = true) →
      basename (joinSegs segs) = lastSeg segs
  | [], h, _ => absurd rfl h
  | [s], _, hn => by
    have := hn s (by simp)
    rw [nameOK, Bool.and_eq_true] at this
    simp only [joinSegs, lastSeg]
    exact basename_of_noslash s this.2
  | s :: s2 :: ss, _, hn => by
    have h1 : joinSegs (s :: s2 :: ss) = s ++ "/" ++ joinSegs (s2 :: ss) := rfl
    have h2 : lastSeg (s :: s2 :: ss) = lastSeg (s2 :: ss) := rfl
    rw [h1, h2, basename_append_slash]
    exact basename_joinSegs (s2 :: ss) (by simp)
      (fun x hx => hn x (List.mem_cons_of_mem s hx))

theorem lastSeg_mem : ∀ segs : List String, segs ≠ [] → lastSeg segs ∈ segs
  | [], h => absurd rfl h
  | [s], _ => by simp [lastSeg]
  | s :: s2 :: ss, _ => by
    have h2 : lastSeg (s :: s2 :: ss) = lastSeg (s2 :: ss) := rfl
    rw [h2]
    exact List.mem_cons_of_mem s (lastSeg_mem (s2 :: ss) (by simp))

theorem joinSegs_ne_empty :
    ∀ segs : List String, segs ≠ [] → (∀ s ∈ segs, nameOK s = true) →
      joinSegs segs ≠ ""
  | [], h, _ => absurd rfl h
  | [s], _, hn => by
    have := hn s (by simp)
    rw [nameOK, Bool.and_eq_true] at this
    simp only [joinSegs]
    intro he
    rw [he] at this
    simpa using this.1
  | s :: s2 :: ss, _, _ => by
    have h1 : joinSegs (s :: s2 :: ss) = s ++ "/" ++ joinSegs (s2 :: ss) := rfl
    rw [h1]
    intro he
    have := congrArg String.data he
    rw [String.data_append, String.data_append] at this
    have := congrArg List.length this
    simp at this

theorem treeOK_cons (n : String) (t : FTree) (rest : List (String × FTree)) :
    treeOK (FTree.dir ((n, t) :: rest))
      = (nameOK n && treeOK t && treeOK (FTree.dir rest)) := by
  simp only [treeOK]

theorem treeOK_lookupChild :
    ∀ cs : List (String × FTree), treeOK (FTree.dir cs) = true →
      ∀ {n : String} {u : FTree}, lookupChild cs n = some u → treeOK u = true
  | [], _, _, _, h => by simp [lookupChild] at h
  | (m, v) :: rest, hok, n, u, h => by
    rw [treeOK_cons, Bool.and_eq_true, Bool.and_eq_true] at hok
    rw [lookupChild] at h
    by_cases hm : m = n
    · rw [if_pos hm] at h
      injection h with h
      rw [← h]
      exact hok.1.2
    · rw [if_neg hm] at h
      exact treeOK_lookupChild rest hok.2 h

theorem treeOK_find :
    ∀ (segs : List String) (r : FTree), treeOK r = true →
      ∀ {t : FTree}, FTree.find r segs = some t → treeOK t = true
  | [], r, hok, t, h => by
    rw [FTree.find] at h
    injection h with h
    rw [← h]; exact hok
  | n :: rest, FTree.file c, _, t, h => by
    rw [FTree.find] at h
    cases h
  | n :: rest, FTree.dir cs, hok, t, h => by
    rw [FTree.find] at h
    rcases hu : lookupChild cs n with _ | u
    · rw [hu] at h
      cases h
    · rw [hu] at h
      exact treeOK_find rest u (treeOK_lookupChild cs hok hu) h

/-- Every entry yielded by the traversal of a well-named tree has a
non-empty relative path made of usable names. -/
theorem findFiles_segments_names (rec : Bool) (infil outfil : List String) :
    ∀ cs : List (String × FTree), treeOK (FTree.dir cs) = true →
      ∀ e ∈ FindFiles rec infil outfil cs,
        e.1 ≠ [] ∧ ∀ s ∈ e.1, nameOK s = true
  | [] => by
    intro _ e he
    simp [FindFiles] at he
  | (n, FTree.file c) :: rest => by
    intro hok e he
    rw [treeOK_cons, Bool.and_eq_true, Bool.and_eq_true] at hok
    simp only [FindFiles] at he
    rcases List.mem_append.1 he with h | h
    · by_cases hm : (MatchMasks n infil && !MatchMasks n outfil) = true
      · rw [if_pos hm] at h
        rcases List.mem_singleton.1 h with rfl
        exact ⟨by simp, by
          intro s hs
          rcases List.mem_singleton.1 hs with rfl
          exact hok.1.1⟩
      · rw [if_neg hm] at h
        cases h
    · exact findFiles_segments_names rec infil outfil rest hok.2 e h
  | (n, FTree.dir sub) :: rest => by
    intro hok e he
    rw [treeOK_cons, Bool.and_eq_true, Bool.and_eq_true] at hok
    have hrest : treeOK (FTree.dir rest) = true := hok.2
    have hsub : treeOK (FTree.dir sub) = true := hok.1.2
    simp only [FindFiles] at he
    by_cases hm : MatchMasks n outfil = true
    · rw [if_pos hm] at he
      exact findFiles_segments_names rec infil outfil rest hrest e he
    · rw [if_neg hm] at he
      rcases List.mem_append.1 he with h | h
      · rcases List.mem_append.1 h with h1 | h1
        · by_cases hi : MatchMasks n infil = true
          · rw [if_pos hi] at h1
            rcases List.mem_singleton.1 h1 with rfl
            exact ⟨by simp, by
              intro s hs
              rcases List.mem_singleton.1 hs with rfl
              exact hok.1.1⟩
          · rw [if_neg hi] at h1
            cases h1
        · by_cases hr : rec = true
          · rw [if_pos hr] at h1
            rcases List.mem_map.1 h1 with ⟨p, hp, rfl⟩
            have := findFiles_segments_names rec infil outfil sub hsub p hp
            refine ⟨by simp, ?_⟩
            intro s hs
            rcases List.mem_cons.1 hs with rfl | hsp
            · exact hok.1.1
            · exact this.2 s hsp
          · rw [if_neg hr] at h1
            cases h1
      · exact findFiles_segments_names rec infil outfil rest hrest e h
termination_by cs => sizeOf cs

/-- C5: destination shapes of the `CopyFilesX` copy modes.  In
recursive-flatten mode (`-` prefix) every produced pair sends the source
file to `target_dir` joined directly with the source's basename — a
single path segment, so no intermediate directory name of the source tree
appears in the destination.  In recursive-preserve mode (`+` prefix)
every pair reproduces the source file's relative path under
`target_dir`. -/
theorem copyFilesX_mode_destinations (root : FTree) (td pat : String)
    (hwf : treeOK root = true) :
    ((parseMode pat).1 = CopyMode.flat →
      ∀ p ∈ copySpecPairs root td pat,
        p.2 = pjoin td (basename p.1) ∧
        (basename p.1).data.all (fun c => c ≠ '/') = true) ∧
    ((parseMode pat).1 = CopyMode.tree →
      ∀ p ∈ copySpecPairs root td pat,
        ∃ rel, rel ≠ "" ∧ p.1 = pjoin (joinSegs (specBaseSegs pat)) rel ∧
          p.2 = pjoin td rel) := by
  constructor
  · intro hmode p hp
    simp only [copySpecPairs, hmode] at hp
    rcases hfind : FTree.find root (specBaseSegs pat) with _ | t
    · rw [hfind] at hp
      simp at hp
    · rw [hfind] at hp
      cases t with
      | file c => simp at hp
      | dir cs =>
        rcases List.mem_filterMap.1 hp with ⟨e, he, heq⟩
        by_cases hdir : e.2 = true
        · rw [if_pos hdir] at heq
          cases heq
        · rw [if_neg hdir] at heq
          injection heq with heq
          have hcs : treeOK (FTree.dir cs) = true := treeOK_find _ root hwf hfind
          have hnames := findFiles_segments_names _ _ _ cs hcs e he
          have hbase : basename (pjoin (joinSegs (specBaseSegs pat)) (joinSegs e.1))
              = lastSeg e.1 := by
            rw [pjoin]
            by_cases hb : joinSegs (specBaseSegs pat) = ""
            · rw [if_pos hb]
              exact basename_joinSegs e.1 hnames.1 hnames.2
            · rw [if_neg hb, basename_append_slash]
              exact basename_joinSegs e.1 hnames.1 hnames.2
          rw [← heq]
          constructor
          · simp only [hbase]
          · rw [hbase]
            have := hnames.2 (lastSeg e.1) (lastSeg_mem e.1 hnames.1)
            rw [nameOK, Bool.and_eq_true] at this
            exact this.2
  · intro hmode p hp
    simp only [copySpecPairs, hmode] at hp
    rcases hfind : FTree.find root (specBaseSegs pat) with _ | t
    · rw [hfind] at hp
      simp at hp
    · rw [hfind] at hp
      cases t with
      | file c => simp at hp
      | dir cs =>
        rcases List.mem_filterMap.1 hp with ⟨e, he, heq⟩
        by_cases hdir : e.2 = true
        · rw [if_pos hdir] at heq
          cases heq
        · rw [if_neg hdir] at heq
          injection heq with heq
          have hcs : treeOK (FTree.dir cs) = true := treeOK_find _ root hwf hfind
          have hnames := findFiles_segments_names _ _ _ cs hcs e he
          exact ⟨joinSegs e.1,
            joinSegs_ne_empty e.1 hnames.1 hnames.2,
            by rw [← heq], by rw [← heq]⟩

/-- Witness for C5: the flatten spec `('T', '-b/*')` over a tree holding
`b/d/f` produces the single pair `(b/d/f, T/f)`, whose destination is the
target directory joined with the source's basename. -/
theorem copyFilesX_mode_destinations_witness :
    treeOK flatRoot = true ∧
    ("b/d/f", "T/f") ∈ copySpecPairs flatRoot "T" "-b/*" ∧
    ("b/d/f", "T/f").2 = pjoin "T" (basename ("b/d/f", "T/f").1) := by
  have hwf : treeOK flatRoot = true := by
    simp only [flatRoot, treeOK]
    decide
  have heval : copySpecPairs flatRoot "T" "-b/*" = [("b/d/f", "T/f")] := by
    have h1 : specInFilters "-b/*" = ["*"] := rfl
    have h2 : specOutFilters "-b/*" = [] := rfl
    have h3 : specBaseSegs "-b/*" = ["b"] := rfl
    have h4 : (parseMode "-b/*").1 = CopyMode.flat := rfl
    have hf : FTree.find flatRoot ["b"]
        = some (FTree.dir [("d", FTree.dir [("f", FTree.file "x")])]) := rfl
    have hff : FindFiles true ["*"] [] [("d", FTree.dir [("f", FTree.file "x")])]
        = [(["d"], true), (["d", "f"], false)] := by
      simp only [FindFiles]
      norm_num [MatchMasks, globMatch, globStep]
    simp only [copySpecPairs, h1, h2, h3, h4, hf, hff, CopyMode.recursive]
    rfl
  have hmem : ("b/d/f", "T/f") ∈ copySpecPairs flatRoot "T" "-b/*" := by
    rw [heval]; simp
  exact ⟨hwf, hmem,
    ((copyFilesX_mode_destinations flatRoot "T" "-b/*" hwf).1 rfl
      ("b/d/f", "T/f") hmem).1⟩

/-! ## Claim C8 -/

theorem lookupChild_setChild_self :
    ∀ (cs : List (String × FTree)) (n : String) (t : FTree),
      lookupChild (setChild cs n t) n = some t
  | [], n, t => by simp [setChild, lookupChild]
  | (m, u) :: rest, n, t => by
    by_cases hm : m = n
    · simp [setChild, lookupChild, hm]
    · simp only [setChild, lookupChild, if_neg hm]
      exact lookupChild_setChild_self rest n t

theorem isDirAt_nil_of_dir (cs : List (String × FTree)) :
    isDirAt (FTree.dir cs) [] = true := by
  simp [isDirAt, FTree.find]

theorem isDirAt_insert_parent :
    ∀ (segs : List String) (n : String) (r t : FTree),
      isDirAt (insertTreeAt r (segs ++ [n]) t) segs = true
  | [], n, r, t => by
    cases r with
    | file c => simp [insertTreeAt, isDirAt, FTree.find]
    | dir cs => simp [insertTreeAt, isDirAt, FTree.find]
  | s :: rest, n, r, t => by
    cases r with
    | file c =>
      have ih := isDirAt_insert_parent rest n (FTree.dir []) t
      simp only [insertTreeAt, isDirAt, FTree.find, List.cons_append,
        lookupChild, if_pos rfl] at ih ⊢
      exact ih
    | dir cs =>
      have ih := isDirAt_insert_parent rest n
        (match lookupChild cs s with
         | some u => u
         | none => FTree.dir []) t
      simp only [insertTreeAt, isDirAt, FTree.find, List.cons_append] at ih ⊢
      rw [lookupChild_setChild_self]
      exact ih

theorem copyEntries_isDir :
    ∀ (entries : List (String × FTree)) (segs : List String) (r : FTree),
      isDirAt r segs = true →
      isDirAt (copyEntries segs r entries) segs = true
  | [], segs, r, h => h
  | (n, t) :: rest, segs, r, h => by
    rw [copyEntries]
    exact copyEntries_isDir rest segs _ (isDirAt_insert_parent segs n r t)

theorem mkdirs_isDir :
    ∀ (segs : List String) (r : FTree), isDirAt (mkdirs r segs) segs = true
  | [], FTree.file c => by simp [mkdirs, isDirAt, FTree.find]
  | [], FTree.dir cs => by simp [mkdirs, isDirAt, FTree.find]
  | s :: rest, FTree.file c => by
    have ih := mkdirs_isDir rest (FTree.dir [])
    simp only [mkdirs, isDirAt, FTree.find, lookupChild, if_pos rfl] at ih ⊢
    exact ih
  | s :: rest, FTree.dir cs => by
    have ih := mkdirs_isDir rest
      (match lookupChild cs s with
       | some u => u
       | none => FTree.dir [])
    simp only [mkdirs, isDirAt, FTree.find] at ih ⊢
    rw [lookupChild_setChild_self]
    exact ih

theorem copyFilesInto_isDir (r : FTree) (srcDir : List String) (mask : String)
    (segs : List String) (h : isDirAt r segs = true) :
    isDirAt (copyFilesInto r srcDir mask segs) segs = true := by
  rw [copyFilesInto]
  rcases FTree.find r srcDir with _ | t
  · exact h
  · cases t with
    | file c => exact h
    | dir cs => exact copyEntries_isDir _ segs r h

theorem globMatch_literal :
    ∀ (s p : List Char), (∀ c ∈ p, c ≠ '*' ∧ c ≠ '?' ∧ c ≠ '[') →
      (globMatch p s = true ↔ p = s)
  | [], [], _ => by simp [globMatch]
  | [], c :: ps, h => by
    have hc := h c (by simp)
    simp [globMatch, hc.1]
  | c :: cs, [], _ => by
    simp [globMatch, globStep]
  | c :: cs, ch :: ps, h => by
    have hc := h ch (by simp)
    have ih := globMatch_literal cs ps (fun x hx => h x (List.mem_cons_of_mem ch hx))
    simp only [globMatch, globStep, if_neg hc.1, if_neg hc.2.1, if_neg hc.2.2]
    constructor
    · intro hb
      rw [Bool.and_eq_true, beq_iff_eq] at hb
      rw [hb.1, ih.1 hb.2]
    · intro hb
      injection hb with h1 h2
      rw [Bool.and_eq_true, beq_iff_eq]
      exact ⟨h1, ih.2 h2⟩

theorem lookupChild_eq_none_not_mem :
    ∀ (cs : List (String × FTree)) (n : String), lookupChild cs n = none →
      ∀ e ∈ cs, e.1 ≠ n
  | [], n, _ => by simp
  | (m, u) :: rest, n, h => by
    rw [lookupChild] at h
    by_cases hm : m = n
    · rw [if_pos hm] at h
      cases h
    · rw [if_neg hm] at h
      intro e he
      rcases List.mem_cons.1 he with rfl | hr
      · exact hm
      · exact lookupChild_eq_none_not_mem rest n h e hr

theorem find_append_last :
    ∀ (xs : List String) (r : FTree) (y : String),
      FTree.find r (xs ++ [y]) =
        (match FTree.find r xs with
         | some (FTree.dir cs) => lookupChild cs y
         | _ => none)
  | [], r, y => by
    cases r with
    | file c => simp [FTree.find]
    | dir cs =>
      simp only [List.nil_append, FTree.find]
      rcases lookupChild cs y with _ | u
      · rfl
      · rfl
  | x :: xs, r, y => by
    cases r with
    | file c => simp [FTree.find]
    | dir cs =>
      simp only [List.cons_append, FTree.find]
      rcases lookupChild cs x with _ | u
      · rfl
      · exact find_append_last xs u y

theorem splitChar_ne_nil (sep : Char) : ∀ l : List Char, splitChar sep l ≠ []
  | [] => by simp [splitChar]
  | c :: rest => by
    simp only [splitChar]
    by_cases hc : c = sep
    · simp [hc]
    · rw [if_neg hc]
      rcases hr : splitChar sep rest with _ | ⟨p, ps⟩
      · simp
      · simp

theorem splitPath_ne_nil (s : String) : splitPath s ≠ [] := by
  rw [splitPath]
  intro h
  exact splitChar_ne_nil '/' s.data (List.map_eq_nil_iff.1 h)

theorem dropLast_append_lastSeg :
    ∀ segs : List String, segs ≠ [] → segs.dropLast ++ [lastSeg segs] = segs
  | [], h => absurd rfl h
  | [s], _ => by simp [lastSeg]
  | s :: s2 :: ss, _ => by
    have h1 : lastSeg (s :: s2 :: ss) = lastSeg (s2 :: ss) := rfl
    have h2 : (s :: s2 :: ss).dropLast = s :: (s2 :: ss).dropLast := rfl
    rw [h1, h2, List.cons_append, dropLast_append_lastSeg (s2 :: ss) (by simp)]

/-- C8: with local schemes, `CopyFiles` fails with
`DirectoryNotFoundError` exactly when the target directory is missing and
`create_target_dir` is false; with `create_target_dir` (and an
OS-creatable path) the target directory is created and the call succeeds;
and an unresolvable source directory (its final segment taken literally)
never raises — the call is a silent no-op. -/
theorem copyFiles_target_dir_errors (root : FTree) (src tgt : String)
    (create : Bool) (hs : IsLocal src = true) (ht : IsLocal tgt = true) :
    ((CopyFiles root src tgt create).2 = .error .DirectoryNotFoundError ↔
      (isDirAt root (splitPath tgt) = false ∧ create = false)) ∧
    (create = true → pathBlocked root (splitPath tgt) = false →
      (CopyFiles root src tgt create).2 = .ok () ∧
      isDirAt (CopyFiles root src tgt create).1 (splitPath tgt) = true) ∧
    (FTree.find root (splitPath src) = none →
      (∀ c ∈ (lastSeg (splitPath src)).data, c ≠ '*' ∧ c ≠ '?' ∧ c ≠ '[') →
      isDirAt root (splitPath tgt) = true →
      CopyFiles root src tgt create = (root, .ok ())) := by
  refine ⟨?_, ?_, ?_⟩
  · by_cases hd : isDirAt root (splitPath tgt) = true
    · simp [CopyFiles, hs, ht, hd]
    · have hd' : isDirAt root (splitPath tgt) = false := by
        cases hv : isDirAt root (splitPath tgt)
        · rfl
        · exact absurd hv hd
      cases create with
      | true => simp [CopyFiles, hs, ht, hd']
      | false => simp [CopyFiles, hs, ht, hd']
  · intro hc _
    subst hc
    by_cases hd : isDirAt root (splitPath tgt) = true
    · simp only [CopyFiles, hs, ht, hd]
      exact ⟨by simp, by simp [copyFilesInto_isDir _ _ _ _ hd]⟩
    · have hd' : isDirAt root (splitPath tgt) = false := by
        cases hv : isDirAt root (splitPath tgt)
        · rfl
        · exact absurd hv hd
      simp only [CopyFiles, hs, ht, hd']
      refine ⟨by simp, by simp [copyFilesInto_isDir _ _ _ _ (mkdirs_isDir _ root)]⟩
  · intro hmiss hlit hd
    have hdsrc : isDirAt root (splitPath src) = false := by
      rw [isDirAt, hmiss]
    simp only [CopyFiles, hs, ht, hdsrc, hd]
    have hinto : copyFilesInto root (splitPath src).dropLast
        (lastSeg (splitPath src)) (splitPath tgt) = root := by
      rw [copyFilesInto]
      rcases hf : FTree.find root (splitPath src).dropLast with _ | t
      · rfl
      · cases t with
        | file c => rfl
        | dir cs =>
          have hnone : lookupChild cs (lastSeg (splitPath src)) = none := by
            have := find_append_last (splitPath src).dropLast root
              (lastSeg (splitPath src))
            rw [dropLast_append_lastSeg _ (splitPath_ne_nil src), hmiss, hf] at this
            exact this.symm
          have hfilter : cs.filter
              (fun e => globMatch (lastSeg (splitPath src)).data e.1.data) = [] := by
            rw [List.filter_eq_nil_iff]
            intro e he
            intro hmatch
            have := (globMatch_literal e.1.data (lastSeg (splitPath src)).data
              hlit).1 hmatch
            exact lookupChild_eq_none_not_mem cs _ hnone e he
              (String.ext this).symm
          show copyEntries (splitPath tgt) root
            (cs.filter (fun e =>
              globMatch (lastSeg (splitPath src)).data e.1.data)) = root
          rw [hfilter]
          rfl
    simp [hinto]

/-- Witness for C8 with the `testCopyFiles` fixture: copying
`files/source` into the missing `target_dir` without
`create_target_dir`. -/
theorem copyFiles_target_dir_errors_witness :
    IsLocal "files/source" = true ∧ IsLocal "target_dir" = true ∧
    ((CopyFiles copyFilesRoot "files/source" "target_dir" false).2
        = .error .DirectoryNotFoundError ↔
      (isDirAt copyFilesRoot (splitPath "target_dir") = false ∧ false = false)) :=
  ⟨by decide, by decide,
    (copyFiles_target_dir_errors copyFilesRoot "files/source" "target_dir" false
      (by decide) (by decide)).1⟩

/-! ## Claim C9 -/

theorem lookupChild_setChild_ne :
    ∀ (cs : List (String × FTree)) (n m : String) (t : FTree), m ≠ n →
      lookupChild (setChild cs n t) m = lookupChild cs m
  | [], n, m, t, h => by
    simp [setChild, lookupChild, Ne.symm h]
  | (k, u) :: rest, n, m, t, h => by
    by_cases hk : k = n
    · subst hk
      simp [setChild, lookupChild, Ne.symm h]
    · simp only [setChild, lookupChild, if_neg hk]
      by_cases hm : k = m
      · simp [lookupChild, hm]
      · simp only [lookupChild, if_neg hm]
        exact lookupChild_setChild_ne rest n m t h

theorem find_insertTreeAt_self :
    ∀ (segs : List String) (r t : FTree),
      FTree.find (insertTreeAt r segs t) segs = some t
  | [], r, _ => by cases r <;> simp [insertTreeAt, FTree.find]
  | s :: rest, FTree.file c, t => by
    simp only [insertTreeAt, FTree.find, lookupChild, if_pos rfl]
    exact find_insertTreeAt_self rest (FTree.dir []) t
  | s :: rest, FTree.dir cs, t => by
    simp only [insertTreeAt, FTree.find]
    rw [lookupChild_setChild_self]
    exact find_insertTreeAt_self rest _ t

theorem find_insertTreeAt_other :
    ∀ (a b : List String) (r t : FTree),
      a.isPrefixOf b = false → b.isPrefixOf a = false →
      FTree.find (insertTreeAt r a t) b = FTree.find r b
  | [], b, r, t, ha, hb => by simp [List.isPrefixOf] at ha
  | a1 :: a2, [], r, t, ha, hb => by simp [List.isPrefixOf] at hb
  | a1 :: a2, b1 :: b2, r, t, ha, hb => by
    by_cases he : a1 = b1
    · subst he
      simp only [List.isPrefixOf, beq_self_eq_true, Bool.true_and] at ha hb
      have hb2ne : b2 ≠ [] := by
        intro hnil
        rw [hnil] at hb
        simp [List.isPrefixOf] at hb
      have hnil : ∀ u : FTree, b2 ≠ [] → FTree.find (FTree.dir []) b2 = none := by
        intro u hne
        rcases b2 with _ | ⟨x, xs⟩
        · exact absurd rfl hne
        · simp [FTree.find, lookupChild]
      cases r with
      | file c =>
        have hred : FTree.find (insertTreeAt (FTree.file c) (a1 :: a2) t) (a1 :: b2)
            = FTree.find (insertTreeAt (FTree.dir []) a2 t) b2 := by
          simp [insertTreeAt, FTree.find, lookupChild]
        rw [hred, find_insertTreeAt_other a2 b2 (FTree.dir []) t ha hb,
          hnil t hb2ne]
        rfl
      | dir cs =>
        simp only [insertTreeAt, FTree.find]
        rw [lookupChild_setChild_self]
        rcases hu : lookupChild cs a1 with _ | w
        · show FTree.find (insertTreeAt (FTree.dir []) a2 t) b2 = none
          rw [find_insertTreeAt_other a2 b2 (FTree.dir []) t ha hb,
            hnil t hb2ne]
        · show FTree.find (insertTreeAt w a2 t) b2 = FTree.find w b2
          exact find_insertTreeAt_other a2 b2 w t ha hb
    · cases r with
      | file c =>
        simp [insertTreeAt, FTree.find, lookupChild, if_neg he]
      | dir cs =>
        simp only [insertTreeAt, FTree.find]
        rw [lookupChild_setChild_ne cs a1 b1 _ (Ne.symm he)]

/-- C9: after a successful `CopyDirectory(src, dst)` between
non-overlapping paths, traversing the destination and the source yields
the same relative paths — the whole source structure, and nothing else,
appears under the destination. -/
theorem copyDirectory_roundtrip (root root' : FTree) (src tgt : String)
    (h1 : (splitPath src).isPrefixOf (splitPath tgt) = false)
    (h2 : (splitPath tgt).isPrefixOf (splitPath src) = false)
    (h : CopyDirectory root src tgt false = (root', Except.ok ())) :
    ∀ p, p ∈ findFilesRelAt root' (splitPath tgt) ↔
      p ∈ findFilesRelAt root' (splitPath src) := by
  simp only [CopyDirectory] at h
  by_cases hsl : (!IsLocal src) = true
  · rw [if_pos hsl] at h
    injection h with _ hb
    exact absurd hb (by simp)
  · rw [if_neg hsl] at h
    by_cases htl : (!IsLocal tgt) = true
    · rw [if_pos htl] at h
      injection h with _ hb
      exact absurd hb (by simp)
    · rw [if_neg htl] at h
      rcases hf : FTree.find root (splitPath src) with _ | t
      · rw [hf] at h
        injection h with _ hb
        exact absurd hb (by simp)
      · rw [hf] at h
        cases t with
        | file c =>
          injection h with _ hb
          exact absurd hb (by simp)
        | dir cs =>
          simp only [Bool.not_false, Bool.and_true, Bool.false_eq_true,
            if_false] at h
          by_cases hex : (FTree.find root (splitPath tgt)).isSome = true
          · rw [if_pos hex] at h
            injection h with _ hb
            exact absurd hb (by simp)
          · rw [if_neg hex] at h
            injection h with ha _
            subst ha
            have hT := find_insertTreeAt_self (splitPath tgt) root (FTree.dir cs)
            have hS : FTree.find (insertTreeAt root (splitPath tgt) (FTree.dir cs))
                (splitPath src) = some (FTree.dir cs) := by
              rw [find_insertTreeAt_other (splitPath tgt) (splitPath src)
                root (FTree.dir cs) h2 h1, hf]
            intro p
            rw [findFilesRelAt, findFilesRelAt, hT, hS]

/-- Witness for C9: mirroring `s` (holding `f` and `d1/g`) to `t` and
comparing the relative traversals at a sample path. -/
theorem copyDirectory_roundtrip_witness :
    (splitPath "s").isPrefixOf (splitPath "t") = false ∧
    CopyDirectory mirrorRoot "s" "t" false = (mirrorAfter, Except.ok ()) ∧
    ("d1/g" ∈ findFilesRelAt mirrorAfter (splitPath "t") ↔
      "d1/g" ∈ findFilesRelAt mirrorAfter (splitPath "s")) :=
  ⟨by decide, by rfl,
    copyDirectory_roundtrip mirrorRoot mirrorAfter "s" "t"
      (by decide) (by decide) (by rfl) "d1/g"⟩

end EasyFs
